import Mathlib

/-!
Shallow embedding of the core logic of the plano-rs repository:
the two `TableSpec::parse` variants, partition-aware schema cleaning,
the partitioned export pipeline (validation, per-row partition keys,
row grouping), the bounded LRU query cache, and the metrics object-store
decorator — together with theorems settling the specification claims.
-/

set_option maxRecDepth 4000

namespace Plano

/-! ## String splitting helpers (Rust `split_once` / `rfind` / `split`) -/

/-- Rust `str::split_once(c)`: split at the first occurrence of `c`. -/
def splitFirst (c : Char) : List Char → Option (List Char × List Char)
  | [] => none
  | x :: xs =>
    if x = c then some ([], xs)
    else (splitFirst c xs).map (fun p => (x :: p.1, p.2))

/-- Split at the last occurrence of `c` (Rust `rfind` followed by slicing). -/
def splitLast (c : Char) : List Char → Option (List Char × List Char)
  | [] => none
  | x :: xs =>
    match splitLast c xs with
    | some p => some (x :: p.1, p.2)
    | none => if x = c then some ([], xs) else none

/-- Rust `str::split(c)` on a single-character pattern: the pieces between
    separators, empty pieces included. -/
def splitOnChar (c : Char) : List Char → List (List Char)
  | [] => [[]]
  | x :: xs =>
    if x = c then [] :: splitOnChar c xs
    else
      match splitOnChar c xs with
      | s :: rest => (x :: s) :: rest
      | [] => [[x]]

/-! ## TableSpec and the two parse variants -/

/-- `TableSpec` from `plano-serv` (`table_spec.rs` / `tables.rs`). -/
structure TableSpec where
  name : String
  root : String
  partitions : List String
deriving Repr, DecidableEq

/-- The error text of both parse variants: `format!("Invalid table-spec `{s}`")`. -/
def invalidSpecMsg (s : String) : String := "Invalid table-spec `" ++ s ++ "`"

/-- Shared tail of both parse variants: turn the text after the partition
    separator into the partition list (`parts.split(',')` unless empty). -/
def partitionsOf (parts : List Char) : List String :=
  if parts.isEmpty then [] else (splitOnChar ',' parts).map (fun l => String.mk l)

/-- `TableSpec::parse` from `plano-serv/src/table_spec.rs`: split at the first
    `=`; then split the remainder at the FIRST `:` unconditionally
    (`rest.split_once(':')`), the part after the colon being the comma-separated
    partition list. -/
def tableSpecParse (s : String) : Except String TableSpec :=
  match splitFirst '=' s.data with
  | none => .error (invalidSpecMsg s)
  | some nr =>
    let rp : List Char × List Char :=
      match splitFirst ':' nr.2 with
      | some p => p
      | none => (nr.2, [])
    .ok ⟨String.mk nr.1, String.mk rp.1, partitionsOf rp.2⟩

/-- `TableSpec::parse` from `plano-serv/src/tables.rs`: split at the first `=`;
    then find the LAST `:` of the remainder (`rest.rfind(':')`); when the byte
    immediately after that colon is `/` the whole remainder is the root,
    otherwise split there. -/
def tablesParse (s : String) : Except String TableSpec :=
  match splitFirst '=' s.data with
  | none => .error (invalidSpecMsg s)
  | some nr =>
    let rp : List Char × List Char :=
      match splitLast ':' nr.2 with
      | none => (nr.2, [])
      | some p => if p.2.head? = some '/' then (nr.2, []) else p
    .ok ⟨String.mk nr.1, String.mk rp.1, partitionsOf rp.2⟩

/-! ### Splitting lemmas -/

theorem splitFirst_eq_none {c : Char} {l : List Char} :
    splitFirst c l = none ↔ c ∉ l := by
  induction l with
  | nil => simp [splitFirst]
  | cons x xs ih =>
    by_cases hx : x = c
    · subst hx; simp [splitFirst]
    · simp [splitFirst, hx, ih, Option.map_eq_none]
      intro h
      exact fun he => hx he.symm

theorem splitFirst_append {c : Char} {a b : List Char} (h : c ∉ a) :
    splitFirst c (a ++ c :: b) = some (a, b) := by
  induction a with
  | nil => simp [splitFirst]
  | cons x xs ih =>
    have hx : ¬ x = c := fun he => h (he ▸ List.mem_cons_self x xs)
    have hxs : c ∉ xs := fun hm => h (List.mem_cons_of_mem x hm)
    simp [splitFirst, hx, ih hxs]

theorem splitFirst_eq_some {c : Char} {l a b : List Char}
    (h : splitFirst c l = some (a, b)) : l = a ++ c :: b ∧ c ∉ a := by
  induction l generalizing a with
  | nil => simp [splitFirst] at h
  | cons x xs ih =>
    by_cases hx : x = c
    · subst hx
      simp [splitFirst] at h
      obtain ⟨ha, hb⟩ := h
      subst ha; subst hb
      simp
    · rw [splitFirst, if_neg hx] at h
      rcases hs : splitFirst c xs with _ | ⟨p1, p2⟩
      · rw [hs] at h; simp at h
      · rw [hs] at h
        have h' : x :: p1 = a ∧ p2 = b := by simpa using h
        obtain ⟨hq, hb⟩ := h'
        subst hb
        obtain ⟨h1, h2⟩ := ih hs
        constructor
        · rw [← hq, h1]; rfl
        · rw [← hq]
          intro hm
          rcases List.mem_cons.mp hm with h1 | h1
          · exact hx h1.symm
          · exact h2 h1

theorem splitLast_append {c : Char} {a b : List Char} (h : c ∉ b) :
    splitLast c (a ++ c :: b) = some (a, b) := by
  induction a with
  | nil =>
    have hb : splitLast c b = none := by
      induction b with
      | nil => rfl
      | cons y ys ihy =>
        have hy : ¬ y = c := fun he => h (he ▸ List.mem_cons_self y ys)
        have hys : c ∉ ys := fun hm => h (List.mem_cons_of_mem y hm)
        simp [splitLast, ihy hys, hy]
    simp [splitLast, hb]
  | cons x xs ih =>
    simp [splitLast, ih]

theorem splitLast_eq_none {c : Char} {l : List Char} :
    splitLast c l = none ↔ c ∉ l := by
  induction l with
  | nil => simp [splitLast]
  | cons x xs ih =>
    by_cases hx : x = c
    · subst hx
      constructor
      · intro h
        simp [splitLast] at h
        rcases hs : splitLast x xs with _ | p <;> simp [hs] at h
      · intro h
        exact absurd (List.mem_cons_self x xs) h
    · constructor
      · intro h
        rcases hs : splitLast c xs with _ | p
        · have hxs := ih.mp hs
          intro hm
          rcases List.mem_cons.mp hm with h1 | h1
          · exact hx h1.symm
          · exact hxs h1
        · simp [splitLast, hs] at h
      · intro h
        have hxs : c ∉ xs := fun hm => h (List.mem_cons_of_mem x hm)
        have hx' : ¬ c = x := fun he => hx he.symm
        simp [splitLast, ih.mpr hxs, hx, hx']

theorem splitLast_eq_some {c : Char} {l a b : List Char}
    (h : splitLast c l = some (a, b)) : l = a ++ c :: b ∧ c ∉ b := by
  induction l generalizing a b with
  | nil => simp [splitLast] at h
  | cons x xs ih =>
    rcases hs : splitLast c xs with _ | ⟨p1, p2⟩
    · rw [splitLast, hs] at h
      by_cases hx : x = c
      · rw [if_pos hx] at h
        have h' : ([] : List Char) = a ∧ xs = b := by simpa using h
        obtain ⟨ha, hb⟩ := h'
        subst hb
        rw [← ha, hx]
        exact ⟨rfl, splitLast_eq_none.mp hs⟩
      · rw [if_neg hx] at h
        simp at h
    · rw [splitLast, hs] at h
      have h' : x :: p1 = a ∧ p2 = b := by simpa using h
      obtain ⟨ha, hb⟩ := h'
      subst hb
      obtain ⟨h1, h2⟩ := ih hs
      exact ⟨by rw [← ha, h1]; rfl, h2⟩

/-! ## Calendar arithmetic (model of chrono's civil-date conversion) -/

/-- Civil date `(year, month, day)` from days since 1970-01-01 in the
    proleptic Gregorian calendar (the conversion used by chrono). -/
def civilFromDays (z0 : Int) : Int × Nat × Nat :=
  let z : Int := z0 + 719468
  let era : Int := Int.ediv z 146097
  let doe : Nat := (z - era * 146097).toNat
  let yoe : Nat := (doe - doe / 1460 + doe / 36524 - doe / 146096) / 365
  let y : Int := (yoe : Int) + era * 400
  let doy : Nat := doe - (365 * yoe + yoe / 4 - yoe / 100)
  let mp : Nat := (5 * doy + 2) / 153
  let d : Nat := doy - (153 * mp + 2) / 5 + 1
  let m : Nat := if mp < 10 then mp + 3 else mp - 9
  (if m ≤ 2 then y + 1 else y, m, d)

/-- Days since 1970-01-01 of a proleptic-Gregorian civil date. -/
def daysFromCivil (y : Int) (m d : Nat) : Int :=
  let y2 : Int := if m ≤ 2 then y - 1 else y
  let era : Int := Int.ediv y2 400
  let yoe : Nat := (y2 - era * 400).toNat
  let doy : Nat := (153 * (if 2 < m then m - 3 else m + 9) + 2) / 5 + d - 1
  let doe : Nat := yoe * 365 + yoe / 4 - yoe / 100 + doy
  era * 146097 + (doe : Int) - 719468

/-- The civil UTC datetime components the export pipeline reads off a
    timestamp (`ts.year()`, `ts.month()`, `ts.day()`, `ts.hour()`). -/
structure CivilDateTime where
  year : Int
  month : Nat
  day : Nat
  hour : Nat
  minute : Nat
  second : Nat
deriving Repr, DecidableEq

def microsPerDay : Int := 86400000000

/-- Lower bound of chrono's documented `NaiveDate` range (−262143-01-01),
    in epoch microseconds. -/
def chronoMinMicros : Int := daysFromCivil (-262143) 1 1 * microsPerDay

/-- Upper bound of chrono's documented `NaiveDate` range (end of 262142-12-31),
    in epoch microseconds. -/
def chronoMaxMicros : Int := (daysFromCivil 262142 12 31 + 1) * microsPerDay - 1

/-- Modelled from the spec: `TimestampMicrosecondArray::value_as_datetime`
    of the external arrow/chrono crates (absent from src) — interpret a
    microsecond count since the epoch as a UTC civil datetime, `none` outside
    chrono's documented ±262,000-year range. -/
def valueAsDatetime (micros : Int) : Option CivilDateTime :=
  if chronoMinMicros ≤ micros ∧ micros ≤ chronoMaxMicros then
    let days : Int := Int.ediv micros microsPerDay
    let rem : Nat := (micros - days * microsPerDay).toNat / 1000000
    let ymd := civilFromDays days
    some ⟨ymd.1, ymd.2.1, ymd.2.2, rem / 3600, rem % 3600 / 60, rem % 60⟩
  else none

/-- Rust `format!("{:02}", n)` for the `Nat`-valued calendar components. -/
def pad2 (n : Nat) : String :=
  if n < 10 then "0" ++ toString n else toString n

/-! ## Columnar batches and the export pipeline (`plano-sync`) -/

/-- A column of an Arrow `RecordBatch`, restricted to the physical types the
    export pipeline distinguishes: Utf8 string arrays, microsecond-timestamp
    arrays, and any other type (on which both downcasts fail). -/
inductive ColumnData where
  | utf8 (vals : List String)
  | timestampMicros (vals : List Int)
  | otherType
deriving Repr, DecidableEq

/-- The fields of `plano-sync`'s `Args` that the partition logic reads. -/
structure Args where
  table : String
  output_dir : String
  partition_by : List String
  timestamp_col : Option String
deriving Repr, DecidableEq

/-- The reserved calendar keywords of the export pipeline. -/
def reservedKeys : List String := ["year", "month", "day", "hour"]

/-- `build_column_index_map` lookup: the `HashMap` is filled per schema field
    in order, so a duplicated field name maps to its last index. -/
def lookupIdx (schema : List String) (key : String) : Option Nat :=
  (schema.enum.reverse.find? (fun p => p.2 = key)).map (fun p => p.1)

/-- `format!("{:02}", ..)` dispatch of `build_partition_key`'s reserved-key
    `match`; the final arm is `unreachable!()` in the source (guarded by the
    reserved-keys test) and is given a dummy value here. -/
def timeComponent (key : String) (dt : CivilDateTime) : String :=
  if key = "year" then toString dt.year
  else if key = "month" then pad2 dt.month
  else if key = "day" then pad2 dt.day
  else if key = "hour" then pad2 dt.hour
  else ""

/-- One `key=value` segment of `build_partition_key`
    (`plano-sync/src/partitions.rs`, lines 90–122); an `Except.error` carries
    the panic message of the corresponding `expect`/`unwrap`. -/
def partitionSegment (row : Nat) (schema : List String) (batch : List ColumnData)
    (args : Args) (key : String) : Except String String :=
  if key ∈ reservedKeys then do
    let colName ← match args.timestamp_col with
      | some c => Except.ok c
      | none => Except.error "timestamp_col must be set for time-based partitioning"
    let colIdx ← match lookupIdx schema colName with
      | some i => Except.ok i
      | none => Except.error "timestamp col not found"
    let col ← match batch.get? colIdx with
      | some c => Except.ok c
      | none => Except.error "column index out of bounds"
    let vals ← match col with
      | ColumnData.timestampMicros vals => Except.ok vals
      | _ => Except.error "timestamp type mismatch"
    let t ← match vals.get? row with
      | some t => Except.ok t
      | none => Except.error "row index out of bounds"
    let dt ← match valueAsDatetime t with
      | some dt => Except.ok dt
      | none => Except.error "invalid timestamp value"
    Except.ok (key ++ "=" ++ timeComponent key dt)
  else do
    let colIdx ← match lookupIdx schema key with
      | some i => Except.ok i
      | none => Except.error "column not found"
    let col ← match batch.get? colIdx with
      | some c => Except.ok c
      | none => Except.error "column index out of bounds"
    let vals ← match col with
      | ColumnData.utf8 vals => Except.ok vals
      | _ => Except.error "string type mismatch"
    let v ← match vals.get? row with
      | some v => Except.ok v
      | none => Except.error "row index out of bounds"
    Except.ok (key ++ "=" ++ v)

/-- The `parts` vector of `build_partition_key`: one segment per entry of
    `args.partition_by`, in order, aborting at the first panic. -/
def buildPartitionKeyParts (row : Nat) (schema : List String)
    (batch : List ColumnData) (args : Args) :
    List String → Except String (List String)
  | [] => Except.ok []
  | k :: ks => do
    let seg ← partitionSegment row schema batch args k
    let rest ← buildPartitionKeyParts row schema batch args ks
    Except.ok (seg :: rest)

/-- `build_partition_key`: the row's partition-key string,
    `parts.join("/")`; an `Except.error` is a process-aborting panic. -/
def build_partition_key (row : Nat) (schema : List String)
    (batch : List ColumnData) (args : Args) : Except String String :=
  (buildPartitionKeyParts row schema batch args args.partition_by).map
    (fun parts => String.intercalate "/" parts)

/-- Outcome of running a `plano-sync` pipeline step: a value, an `anyhow`
    error returned to the caller, or a process-aborting panic. -/
inductive RunResult (α : Type) where
  | ok (a : α)
  | error (msg : String)
  | panicked (msg : String)
deriving Repr, DecidableEq

/-- `groups.entry(key).or_default().push(row)` on the association-list model
    of the `HashMap`, keyed in first-insertion order. -/
def insertGroup : List (String × List Nat) → String → Nat → List (String × List Nat)
  | [], k, r => [(k, [r])]
  | (k2, v) :: rest, k, r =>
    if k2 = k then (k2, v ++ [r]) :: rest else (k2, v) :: insertGroup rest k r

/-- The row loop of `group_rows_by_partition` over the remaining row indices,
    with the groups accumulated so far. -/
def groupRowsAux (schema : List String) (batch : List ColumnData) (args : Args) :
    List Nat → List (String × List Nat) → RunResult (List (String × List Nat))
  | [], acc => RunResult.ok acc
  | r :: rs, acc =>
    match build_partition_key r schema batch args with
    | Except.error msg => RunResult.panicked msg
    | Except.ok key =>
      if r < 2 ^ 32 then groupRowsAux schema batch args rs (insertGroup acc key r)
      else RunResult.error "u32 conversion out of range"

/-- `group_rows_by_partition` (`plano-sync/src/partitions.rs`, lines 63–79):
    one pass over `0..num_rows`, appending each row index to its partition
    key's group. A failing per-row key computation panics; a row index that
    does not fit `u32` is an `anyhow` error (`u32::try_from(row)?`). -/
def group_rows_by_partition (schema : List String) (batch : List ColumnData)
    (numRows : Nat) (args : Args) : RunResult (List (String × List Nat)) :=
  groupRowsAux schema batch args (List.range numRows) []

/-- `validate_partition_keys`: when `--timestamp-col` is unset, the first
    reserved calendar keyword among the partition keys is rejected
    (`eprintln!` + `process::exit(1)`, modelled as an error naming the key). -/
def validate_partition_keys (args : Args) : Except String Unit :=
  match args.timestamp_col with
  | some _ => Except.ok ()
  | none =>
    match args.partition_by.find? (fun k => decide (k ∈ reservedKeys)) with
    | some k =>
      Except.error ("error: reserved partition key `" ++ k ++
        "`, but --timestamp-col is not set")
    | none => Except.ok ()

/-- The data-relevant prefix of `plano-sync`'s `main`: validation runs first
    (before the batch is fetched from Postgres), then rows are grouped. -/
def syncPipeline (args : Args) (schema : List String) (batch : List ColumnData)
    (numRows : Nat) : RunResult (List (String × List Nat)) :=
  match validate_partition_keys args with
  | Except.error m => RunResult.error m
  | Except.ok _ => group_rows_by_partition schema batch numRows args

/-! ## Schema cleaning (`register_table`) -/

/-- A primitive Arrow data type of an inferred physical schema field. -/
inductive ArrowDataType where
  | utf8
  | int64
  | float64
  | boolean
  | timestampMicros
deriving Repr, DecidableEq

/-- An Arrow schema field: `(name, type, nullable)`. -/
structure ArrowField where
  name : String
  dtype : ArrowDataType
  nullable : Bool
deriving Repr, DecidableEq

/-- The `clean_fields` computation of `register_table`
    (`plano-serv/src/tables.rs` lines 90–100 and `main.rs` lines 329–339):
    keep exactly the inferred fields whose names are not in the declared
    partition set (`!part_set.contains(f.name())`). -/
def cleanFields (fileSchema : List ArrowField) (partitions : List String) :
    List ArrowField :=
  fileSchema.filter (fun f => decide (f.name ∉ partitions))

/-! ## Concrete batches used by the scenario claims -/

/-- The 3-row batch of the grouping scenario: string columns
    `key = ["a","b","a"]`, `value = ["1","2","3"]`. -/
def exSchema : List String := ["key", "value"]

def exBatch : List ColumnData :=
  [ColumnData.utf8 ["a", "b", "a"], ColumnData.utf8 ["1", "2", "3"]]

def exArgs : Args := ⟨"t", "/tmp", ["key"], none⟩

/-- The timestamp-decomposition scenario: one `ts` column holding
    2024-03-05T13:00:00 UTC in epoch microseconds. -/
def tsSchema : List String := ["ts"]

def tsBatch : List ColumnData := [ColumnData.timestampMicros [1709643600000000]]

def tsArgs : Args := ⟨"t", "/tmp", ["year", "month"], some "ts"⟩

/-! ## Claims about the TableSpec parsers (C2, C7, C8) -/

/-- C7: `TableSpec::parse` (both source variants) returns an error exactly on
    inputs without `=` — in particular on the empty string — and the error
    message carries the offending literal verbatim; every input containing at
    least one `=` parses successfully. -/
theorem C7_parse_error_iff_no_eq (s : String) :
    ('=' ∉ s.data →
      tableSpecParse s = Except.error ("Invalid table-spec `" ++ s ++ "`") ∧
      tablesParse s = Except.error ("Invalid table-spec `" ++ s ++ "`")) ∧
    ('=' ∈ s.data →
      (tableSpecParse s).isOk = true ∧ (tablesParse s).isOk = true) := by
  constructor
  · intro h
    have hsf : splitFirst '=' s.data = none := splitFirst_eq_none.mpr h
    constructor
    · simp [tableSpecParse, hsf, invalidSpecMsg]
    · simp [tablesParse, hsf, invalidSpecMsg]
  · intro h
    rcases hsf : splitFirst '=' s.data with _ | p
    · exact absurd (splitFirst_eq_none.mp hsf) (by simp [h])
    · constructor
      · simp [tableSpecParse, hsf, Except.isOk, Except.toBool]
      · simp [tablesParse, hsf, Except.isOk, Except.toBool]

/-- Closed instances of `C7_parse_error_iff_no_eq`: the empty string is
    rejected with the verbatim literal in the message, and `"a=b"` parses. -/
theorem C7_witness :
    (tableSpecParse "" = Except.error ("Invalid table-spec `" ++ "" ++ "`") ∧
      tablesParse "" = Except.error ("Invalid table-spec `" ++ "" ++ "`")) ∧
    ((tableSpecParse "a=b").isOk = true ∧ (tablesParse "a=b").isOk = true) :=
  ⟨(C7_parse_error_iff_no_eq "").1 (by decide),
   (C7_parse_error_iff_no_eq "a=b").2 (by decide)⟩

/-- C2 fails as stated: the `table_spec.rs` variant (the one compiled into the
    `plano-serv` binary) splits at the FIRST colon, so the claim's own example
    `"users=s3://bucket/users"` yields root `"s3"`, not `"s3://bucket/users"`;
    and the `tables.rs` variant checks only the single character after the
    last colon, so it splits `"t=/a:b/c"` although the text after that colon
    contains a slash. -/
theorem C2_counterexample :
    tableSpecParse "users=s3://bucket/users" =
      Except.ok ⟨"users", "s3", ["//bucket/users"]⟩ ∧
    tablesParse "t=/a:b/c" = Except.ok ⟨"t", "/a", ["b/c"]⟩ ∧
    '/' ∈ "b/c".data := ⟨rfl, rfl, by decide⟩

/-- C2 amended: the `tables.rs` variant splits the remainder at the last colon
    exactly when the character immediately following that colon is absent or
    is not `/`; when that character is `/` (or no colon exists) the entire
    remainder is the root. Both concrete examples of the claim hold for this
    variant. -/
theorem C2_tablesParse_last_colon (name a b rest : List Char)
    (hn : '=' ∉ name) (hb : ':' ∉ b) (hr : ':' ∉ rest) :
    (tablesParse (String.mk (name ++ '=' :: rest)) =
      Except.ok ⟨String.mk name, String.mk rest, []⟩) ∧
    (b.head? = some '/' →
      tablesParse (String.mk (name ++ '=' :: (a ++ ':' :: b))) =
        Except.ok ⟨String.mk name, String.mk (a ++ ':' :: b), []⟩) ∧
    (b.head? ≠ some '/' →
      tablesParse (String.mk (name ++ '=' :: (a ++ ':' :: b))) =
        Except.ok ⟨String.mk name, String.mk a, partitionsOf b⟩) ∧
    tablesParse "events=/data/events:year,month,day" =
      Except.ok ⟨"events", "/data/events", ["year", "month", "day"]⟩ ∧
    tablesParse "users=s3://bucket/users" =
      Except.ok ⟨"users", "s3://bucket/users", []⟩ := by
  refine ⟨?_, ?_, ?_, rfl, rfl⟩
  · have hsf : splitFirst '=' (name ++ '=' :: rest) = some (name, rest) :=
      splitFirst_append hn
    have hsl : splitLast ':' rest = none := splitLast_eq_none.mpr hr
    simp [tablesParse, hsf, hsl, partitionsOf]
  · intro hh
    have hsf : splitFirst '=' (name ++ '=' :: (a ++ ':' :: b)) =
        some (name, a ++ ':' :: b) := splitFirst_append hn
    have hsl : splitLast ':' (a ++ ':' :: b) = some (a, b) := splitLast_append hb
    simp [tablesParse, hsf, hsl, hh, partitionsOf]
  · intro hh
    have hsf : splitFirst '=' (name ++ '=' :: (a ++ ':' :: b)) =
        some (name, a ++ ':' :: b) := splitFirst_append hn
    have hsl : splitLast ':' (a ++ ':' :: b) = some (a, b) := splitLast_append hb
    simp [tablesParse, hsf, hsl, hh]

/-- Closed instances of `C2_tablesParse_last_colon`, discharging each
    hypothesis at concrete inputs. -/
theorem C2_tablesParse_witness :
    (tablesParse (String.mk ("n".data ++ '=' :: "r".data)) =
      Except.ok ⟨"n", "r", []⟩) ∧
    (tablesParse (String.mk ("n".data ++ '=' :: ("s3".data ++ ':' :: "//b".data))) =
      Except.ok ⟨"n", String.mk ("s3".data ++ ':' :: "//b".data), []⟩) ∧
    (tablesParse (String.mk ("n".data ++ '=' :: ("r".data ++ ':' :: "p,q".data))) =
      Except.ok ⟨"n", "r", partitionsOf "p,q".data⟩) := by
  have h := C2_tablesParse_last_colon "n".data "s3".data "//b".data "r".data
    (by decide) (by decide) (by decide)
  have h2 := C2_tablesParse_last_colon "n".data "r".data "p,q".data "r".data
    (by decide) (by decide) (by decide)
  exact ⟨h.1, h.2.1 (by decide), h2.2.2.1 (by decide)⟩

/-- C8 fails as stated: successful parses can violate every conjunct of the
    data-model invariant — `"=x"` parses with an empty name, `"a="` with an
    empty root, and `"a=b:c,c"` with duplicate partition entries. -/
theorem C8_counterexample :
    tablesParse "=x" = Except.ok ⟨"", "x", []⟩ ∧
    tableSpecParse "a=" = Except.ok ⟨"a", "", []⟩ ∧
    tablesParse "a=b:c,c" = Except.ok ⟨"a", "b", ["c", "c"]⟩ := ⟨rfl, rfl, rfl⟩

/-- C8 amended: neither parse variant enforces the invariant; name, root and
    partitions are taken verbatim from the input, so empty names and roots and
    duplicate partition entries pass through. The name of a successful parse
    is empty exactly when the input begins with `=`. -/
theorem C8_parse_name_empty_iff (s : String) (spec : TableSpec)
    (h : tableSpecParse s = Except.ok spec ∨ tablesParse s = Except.ok spec) :
    spec.name = "" ↔ s.data.head? = some '=' := by
  have key : ∀ name rest : List Char, splitFirst '=' s.data = some (name, rest) →
      spec.name = String.mk name →
      (spec.name = "" ↔ s.data.head? = some '=') := by
    intro name rest hsf hname
    obtain ⟨hdecomp, hniv⟩ := splitFirst_eq_some hsf
    constructor
    · intro he
      rw [hname] at he
      have : name = [] := by
        have := congrArg String.data he
        simpa using this
      rw [hdecomp, this]
      rfl
    · intro hh
      rw [hname]
      cases name with
      | nil => rfl
      | cons x xs =>
        rw [hdecomp] at hh
        simp at hh
        exact absurd (hh ▸ List.mem_cons_self x xs) hniv
  rcases h with h | h
  · rcases hsf : splitFirst '=' s.data with _ | p
    · rw [tableSpecParse, hsf] at h
      simp at h
    · rw [tableSpecParse, hsf] at h
      refine key p.1 p.2 (by rw [hsf]) ?_
      have := congrArg TableSpec.name (Except.ok.inj h)
      simpa using this.symm
  · rcases hsf : splitFirst '=' s.data with _ | p
    · rw [tablesParse, hsf] at h
      simp at h
    · rw [tablesParse, hsf] at h
      refine key p.1 p.2 (by rw [hsf]) ?_
      have := congrArg TableSpec.name (Except.ok.inj h)
      simpa using this.symm

/-- Closed instance of `C8_parse_name_empty_iff` at the violating input. -/
theorem C8_witness :
    (TableSpec.mk "" "x" []).name = "" ↔ "=x".data.head? = some '=' :=
  C8_parse_name_empty_iff "=x" ⟨"", "x", []⟩ (Or.inr rfl)

/-! ## C3: clean schema contains exactly the non-partition fields, in order -/

/-- C3: the schema registered by `register_table` is the inferred physical
    schema with every field whose name appears in the partition-column list
    dropped: the clean fields form a sublist of the raw fields (relative order
    preserved, each kept field unchanged), and a field belongs to the clean
    schema exactly when it belongs to the raw schema with a name outside the
    partition list. -/
theorem C3_clean_schema (raw : List ArrowField) (parts : List String) :
    List.Sublist (cleanFields raw parts) raw ∧
    (∀ f : ArrowField, f ∈ cleanFields raw parts ↔ f ∈ raw ∧ f.name ∉ parts) ∧
    (∀ f : ArrowField, f ∈ raw → f.name ∈ parts → f ∉ cleanFields raw parts) := by
  refine ⟨List.filter_sublist raw, ?_, ?_⟩
  · intro f
    simp [cleanFields, List.mem_filter]
  · intro f _ hname hmem
    rw [cleanFields, List.mem_filter] at hmem
    exact absurd hname (by simpa using hmem.2)

/-! ## C4: reserved-keyword validation fails fast -/

/-- The exit message of `validate_partition_keys` for offending key `k`. -/
def reservedKeyMsg (k : String) : String :=
  "error: reserved partition key `" ++ k ++ "`, but --timestamp-col is not set"

/-- C4: when the timestamp column is unset and some partition key is a
    reserved calendar keyword, validation fails with an error naming an
    offending key, and the whole sync pipeline fails with that error
    independently of the data (no row is read); when the timestamp column is
    set, or no key is reserved, validation passes. -/
theorem C4_validate_reserved (args : Args) :
    (args.timestamp_col = none → ∀ k ∈ args.partition_by, k ∈ reservedKeys →
      ∃ k2 ∈ args.partition_by, k2 ∈ reservedKeys ∧
        validate_partition_keys args = Except.error (reservedKeyMsg k2) ∧
        ∀ schema batch n,
          syncPipeline args schema batch n = RunResult.error (reservedKeyMsg k2)) ∧
    (∀ c, args.timestamp_col = some c →
      validate_partition_keys args = Except.ok ()) ∧
    ((∀ k ∈ args.partition_by, k ∉ reservedKeys) →
      validate_partition_keys args = Except.ok ()) := by
  refine ⟨?_, ?_, ?_⟩
  · intro hts k hk hres
    rcases hf : args.partition_by.find? (fun k2 => decide (k2 ∈ reservedKeys))
      with _ | k2
    · rw [List.find?_eq_none] at hf
      exact absurd (by simpa using hf k hk) (by simp [hres])
    · refine ⟨k2, List.mem_of_find?_eq_some hf, by simpa using List.find?_some hf,
        ?_, ?_⟩
      · rw [validate_partition_keys, hts, hf]
        rfl
      · intro schema batch n
        rw [syncPipeline, validate_partition_keys, hts, hf]
        rfl
  · intro c hc
    rw [validate_partition_keys, hc]
  · intro hnone
    rcases hts : args.timestamp_col with _ | c
    · rcases hf : args.partition_by.find? (fun k2 => decide (k2 ∈ reservedKeys))
        with _ | k2
      · rw [validate_partition_keys, hts, hf]
      · have h1 := List.mem_of_find?_eq_some hf
        have h2 : k2 ∈ reservedKeys := by simpa using List.find?_some hf
        exact absurd h2 (hnone k2 h1)
    · rw [validate_partition_keys, hts]

/-- Closed instances of `C4_validate_reserved`: `["year"]` with no timestamp
    column fails naming the key regardless of the data; setting the timestamp
    column, or using only non-reserved keys, passes. -/
theorem C4_validate_witness :
    (∃ k2 ∈ (Args.mk "t" "/tmp" ["year"] none).partition_by,
      k2 ∈ reservedKeys ∧
      validate_partition_keys ⟨"t", "/tmp", ["year"], none⟩ =
        Except.error (reservedKeyMsg k2) ∧
      ∀ schema batch n,
        syncPipeline ⟨"t", "/tmp", ["year"], none⟩ schema batch n =
          RunResult.error (reservedKeyMsg k2)) ∧
    validate_partition_keys ⟨"t", "/tmp", ["year"], some "ts"⟩ = Except.ok () ∧
    validate_partition_keys ⟨"t", "/tmp", ["region"], none⟩ = Except.ok () :=
  ⟨(C4_validate_reserved ⟨"t", "/tmp", ["year"], none⟩).1 rfl "year"
      (by decide) (by decide),
   (C4_validate_reserved ⟨"t", "/tmp", ["year"], some "ts"⟩).2.1 "ts" rfl,
   (C4_validate_reserved ⟨"t", "/tmp", ["region"], none⟩).2.2 (by decide)⟩

/-! ## C1: row grouping is a total partition of the row indices -/

/-- All row indices of a group list, one occurrence per stored index. -/
def groupIndices (gs : List (String × List Nat)) : List Nat :=
  (gs.map Prod.snd).flatten

theorem groupIndices_insertGroup (gs : List (String × List Nat)) (k : String)
    (r : Nat) :
    List.Perm (groupIndices (insertGroup gs k r)) (r :: groupIndices gs) := by
  induction gs with
  | nil => simp [insertGroup, groupIndices]
  | cons g rest ih =>
    obtain ⟨k2, v⟩ := g
    by_cases hk : k2 = k
    · simp only [insertGroup, if_pos hk, groupIndices, List.map_cons,
        List.flatten_cons]
      have h1 : (v ++ [r]) ++ (rest.map Prod.snd).flatten =
          v ++ (r :: (rest.map Prod.snd).flatten) := by simp
      rw [h1]
      exact List.perm_middle
    · simp only [insertGroup, if_neg hk, groupIndices, List.map_cons,
        List.flatten_cons]
      have h1 : List.Perm (v ++ groupIndices (insertGroup rest k r))
          (v ++ (r :: groupIndices rest)) :=
        List.Perm.append_left v (by simpa [groupIndices] using ih)
      exact h1.trans List.perm_middle

theorem groupRowsAux_perm (schema : List String) (batch : List ColumnData)
    (args : Args) (rs : List Nat) (acc gs : List (String × List Nat))
    (h : groupRowsAux schema batch args rs acc = RunResult.ok gs) :
    List.Perm (groupIndices gs) (groupIndices acc ++ rs) := by
  induction rs generalizing acc with
  | nil =>
    rw [groupRowsAux] at h
    cases h
    simp
  | cons r rs ih =>
    rw [groupRowsAux.eq_def] at h
    simp only at h
    rcases hk : build_partition_key r schema batch args with m | key
    · rw [hk] at h; simp at h
    · rw [hk] at h
      simp only at h
      by_cases hr : r < 2 ^ 32
      · rw [if_pos hr] at h
        have h2 := ih _ h
        have h3 : List.Perm (groupIndices (insertGroup acc key r) ++ rs)
            ((r :: groupIndices acc) ++ rs) :=
          List.Perm.append_right rs (groupIndices_insertGroup acc key r)
        exact (h2.trans h3).trans List.perm_middle.symm
      · rw [if_neg hr] at h; simp at h

theorem groupRowsAux_ok (schema : List String) (batch : List ColumnData)
    (args : Args) (rs : List Nat) (acc : List (String × List Nat))
    (h : ∀ r ∈ rs, (build_partition_key r schema batch args).isOk = true ∧
      r < 2 ^ 32) :
    ∃ gs, groupRowsAux schema batch args rs acc = RunResult.ok gs := by
  induction rs generalizing acc with
  | nil => exact ⟨acc, rfl⟩
  | cons r rs ih =>
    obtain ⟨hok, hr⟩ := h r (List.mem_cons_self r rs)
    rcases hk : build_partition_key r schema batch args with m | key
    · rw [hk] at hok; simp [Except.isOk, Except.toBool] at hok
    · rw [groupRowsAux.eq_def]
      simp only
      rw [hk]
      simp only
      rw [if_pos hr]
      exact ih (insertGroup acc key r)
        (fun r2 hr2 => h r2 (List.mem_cons_of_mem r hr2))

/-- C1: whenever `group_rows_by_partition` produces groups, their row-index
    lists taken together are a permutation of `0..row_count` — pairwise
    disjoint, every index below `row_count`, every such index covered exactly
    once; the grouping succeeds whenever every per-row key computation
    succeeds (and the indices fit `u32`); and the 3-row scenario with
    `key = ["a","b","a"]` and partition keys `["key"]` yields exactly the
    groups `key=a ↦ [0,2]` and `key=b ↦ [1]`. -/
theorem C1_grouping_total_partition (schema : List String)
    (batch : List ColumnData) (n : Nat) (args : Args)
    (gs : List (String × List Nat))
    (h : group_rows_by_partition schema batch n args = RunResult.ok gs) :
    List.Perm (groupIndices gs) (List.range n) ∧
    (∀ g ∈ gs, ∀ i ∈ g.2, i < n) ∧
    (∀ i, i < n → ∃ g ∈ gs, i ∈ g.2) ∧
    List.Pairwise (fun g1 g2 : String × List Nat =>
      ∀ i, i ∈ g1.2 → i ∉ g2.2) gs ∧
    (∀ (schema2 : List String) (batch2 : List ColumnData) (n2 : Nat)
      (args2 : Args),
      (∀ r, r < n2 → (build_partition_key r schema2 batch2 args2).isOk = true ∧
        r < 2 ^ 32) →
      ∃ gs2, group_rows_by_partition schema2 batch2 n2 args2 =
        RunResult.ok gs2) ∧
    group_rows_by_partition exSchema exBatch 3 exArgs =
      RunResult.ok [("key=a", [0, 2]), ("key=b", [1])] := by
  have hperm : List.Perm (groupIndices gs) (List.range n) := by
    have := groupRowsAux_perm schema batch args (List.range n) [] gs h
    simpa [groupIndices] using this
  have hnd : (groupIndices gs).Nodup :=
    (List.Perm.nodup_iff hperm).mpr (List.nodup_range n)
  have hmem : ∀ i, i ∈ groupIndices gs ↔ i < n := by
    intro i
    rw [List.Perm.mem_iff hperm, List.mem_range]
  refine ⟨hperm, ?_, ?_, ?_, ?_, rfl⟩
  · intro g hg i hi
    exact (hmem i).mp (by
      rw [groupIndices, List.mem_flatten]
      exact ⟨g.2, List.mem_map_of_mem Prod.snd hg, hi⟩)
  · intro i hi
    have := (hmem i).mpr hi
    rw [groupIndices, List.mem_flatten] at this
    obtain ⟨l, hl, hil⟩ := this
    rw [List.mem_map] at hl
    obtain ⟨g, hg, hgl⟩ := hl
    exact ⟨g, hg, hgl ▸ hil⟩
  · have hdj : List.Pairwise List.Disjoint (gs.map Prod.snd) :=
      (List.nodup_flatten.mp (by simpa [groupIndices] using hnd)).2
    rw [List.pairwise_map] at hdj
    exact hdj.imp (fun hd i h1 h2 => hd h1 h2)
  · intro schema2 batch2 n2 args2 hpre
    exact groupRowsAux_ok schema2 batch2 args2 (List.range n2) []
      (fun r hr => hpre r (List.mem_range.mp hr))

/-- Closed instance of `C1_grouping_total_partition` at the 3-row scenario
    batch, discharging the production hypothesis there. -/
theorem C1_grouping_witness :
    List.Perm (groupIndices [("key=a", [0, 2]), ("key=b", [1])])
      (List.range 3) ∧
    (∀ i, i < 3 → ∃ g ∈ [("key=a", [0, 2]), ("key=b", [1])], i ∈ g.2) := by
  have h := C1_grouping_total_partition exSchema exBatch 3 exArgs
    [("key=a", [0, 2]), ("key=b", [1])] rfl
  exact ⟨h.1, h.2.2.1⟩

/-! ## C5: reserved keys decompose the timestamp column -/

theorem partitionSegment_reserved (row : Nat) (schema : List String)
    (batch : List ColumnData) (args : Args) (key tsName : String) (tsIdx : Nat)
    (tvals : List Int) (t : Int) (dt : CivilDateTime)
    (hk : key ∈ reservedKeys)
    (hts : args.timestamp_col = some tsName)
    (hidx : lookupIdx schema tsName = some tsIdx)
    (hcol : batch[tsIdx]? = some (ColumnData.timestampMicros tvals))
    (hval : tvals[row]? = some t)
    (hdt : valueAsDatetime t = some dt) :
    partitionSegment row schema batch args key =
      Except.ok (key ++ "=" ++ timeComponent key dt) := by
  simp [partitionSegment, hk, hts, hidx, hcol, hval, hdt, Except.instMonad,
    Except.bind]

theorem partitionSegment_plain (row : Nat) (schema : List String)
    (batch : List ColumnData) (args : Args) (key : String) (idx : Nat)
    (vals : List String) (v : String)
    (hk : key ∉ reservedKeys)
    (hidx : lookupIdx schema key = some idx)
    (hcol : batch[idx]? = some (ColumnData.utf8 vals))
    (hval : vals[row]? = some v) :
    partitionSegment row schema batch args key =
      Except.ok (key ++ "=" ++ v) := by
  simp [partitionSegment, hk, hidx, hcol, hval, Except.instMonad, Except.bind]

theorem buildPartitionKeyParts_reserved (row : Nat) (schema : List String)
    (batch : List ColumnData) (args : Args) (tsName : String) (tsIdx : Nat)
    (tvals : List Int) (t : Int) (dt : CivilDateTime)
    (hts : args.timestamp_col = some tsName)
    (hidx : lookupIdx schema tsName = some tsIdx)
    (hcol : batch[tsIdx]? = some (ColumnData.timestampMicros tvals))
    (hval : tvals[row]? = some t)
    (hdt : valueAsDatetime t = some dt) :
    ∀ ks : List String, (∀ k ∈ ks, k ∈ reservedKeys) →
      buildPartitionKeyParts row schema batch args ks =
        Except.ok (ks.map (fun k => k ++ "=" ++ timeComponent k dt)) := by
  intro ks hks
  induction ks with
  | nil => rfl
  | cons k ks ih =>
    have hseg := partitionSegment_reserved row schema batch args k tsName tsIdx
      tvals t dt (hks k (List.mem_cons_self k ks)) hts hidx hcol hval hdt
    have hrest := ih (fun k2 hk2 => hks k2 (List.mem_cons_of_mem k hk2))
    simp [buildPartitionKeyParts, hseg, hrest, Except.instMonad, Except.bind]

/-- C5: when every partition key is a reserved calendar keyword and the
    designated timestamp column holds a convertible value at the row, the
    partition key is the `/`-joined list of `keyword=component` segments in
    declared order, where the year component is the plain decimal rendering
    and month, day and hour are zero-padded to two digits; in particular a
    timestamp for 2024-03-05T13:00:00 with keys `["year","month"]` yields
    `"year=2024/month=03"`. -/
theorem C5_timestamp_components (row : Nat) (schema : List String)
    (batch : List ColumnData) (args : Args) (tsName : String) (tsIdx : Nat)
    (tvals : List Int) (t : Int) (dt : CivilDateTime)
    (hts : args.timestamp_col = some tsName)
    (hidx : lookupIdx schema tsName = some tsIdx)
    (hcol : batch[tsIdx]? = some (ColumnData.timestampMicros tvals))
    (hval : tvals[row]? = some t)
    (hdt : valueAsDatetime t = some dt)
    (hres : ∀ k ∈ args.partition_by, k ∈ reservedKeys) :
    build_partition_key row schema batch args =
      Except.ok (String.intercalate "/"
        (args.partition_by.map (fun k => k ++ "=" ++ timeComponent k dt))) ∧
    timeComponent "year" dt = toString dt.year ∧
    timeComponent "month" dt = pad2 dt.month ∧
    timeComponent "day" dt = pad2 dt.day ∧
    timeComponent "hour" dt = pad2 dt.hour ∧
    build_partition_key 0 tsSchema tsBatch tsArgs =
      Except.ok "year=2024/month=03" := by
  refine ⟨?_, rfl, rfl, rfl, rfl, rfl⟩
  have hparts := buildPartitionKeyParts_reserved row schema batch args tsName
    tsIdx tvals t dt hts hidx hcol hval hdt args.partition_by hres
  simp [build_partition_key, hparts, Except.map]

/-- Closed instance of `C5_timestamp_components` at the scenario batch. -/
theorem C5_timestamp_witness :
    build_partition_key 0 tsSchema tsBatch tsArgs =
      Except.ok (String.intercalate "/" (tsArgs.partition_by.map
        (fun k => k ++ "=" ++ timeComponent k ⟨2024, 3, 5, 13, 0, 0⟩))) :=
  (C5_timestamp_components 0 tsSchema tsBatch tsArgs "ts" 0
    [1709643600000000] 1709643600000000 ⟨2024, 3, 5, 13, 0, 0⟩
    rfl rfl rfl rfl rfl (by decide)).1

/-! ## C10: per-row key computation is total only under unstated
    preconditions, and violations panic rather than return an error -/

theorem buildPartitionKeyParts_isOk (row : Nat) (schema : List String)
    (batch : List ColumnData) (args : Args) (ks : List String)
    (h1 : ∀ k ∈ ks, k ∉ reservedKeys →
      ∃ i vals, lookupIdx schema k = some i ∧
        batch[i]? = some (ColumnData.utf8 vals) ∧ row < vals.length)
    (h2 : (∃ k ∈ ks, k ∈ reservedKeys) →
      ∃ c i vals, args.timestamp_col = some c ∧ lookupIdx schema c = some i ∧
        batch[i]? = some (ColumnData.timestampMicros vals) ∧
        row < vals.length ∧ ∀ t ∈ vals, (valueAsDatetime t).isSome = true) :
    ∃ parts, buildPartitionKeyParts row schema batch args ks =
      Except.ok parts := by
  induction ks with
  | nil => exact ⟨[], rfl⟩
  | cons k ks ih =>
    have hseg : ∃ seg, partitionSegment row schema batch args k =
        Except.ok seg := by
      by_cases hk : k ∈ reservedKeys
      · obtain ⟨c, i, vals, hts, hidx, hcol, hlen, hconv⟩ :=
          h2 ⟨k, List.mem_cons_self k ks, hk⟩
        have hval : vals[row]? = some vals[row] :=
          List.getElem?_eq_getElem hlen
        obtain ⟨dt, hdt⟩ := Option.isSome_iff_exists.mp
          (hconv _ (vals.getElem_mem hlen))
        exact ⟨_, partitionSegment_reserved row schema batch args k c i vals _
          dt hk hts hidx hcol hval hdt⟩
      · obtain ⟨i, vals, hidx, hcol, hlen⟩ :=
          h1 k (List.mem_cons_self k ks) hk
        have hval : vals[row]? = some vals[row] :=
          List.getElem?_eq_getElem hlen
        exact ⟨_, partitionSegment_plain row schema batch args k i vals _
          hk hidx hcol hval⟩
    obtain ⟨seg, hseg⟩ := hseg
    obtain ⟨parts, hparts⟩ := ih
      (fun k2 hk2 => h1 k2 (List.mem_cons_of_mem k hk2))
      (fun ⟨k2, hk2, hr2⟩ => h2 ⟨k2, List.mem_cons_of_mem k hk2, hr2⟩)
    exact ⟨seg :: parts, by simp [buildPartitionKeyParts, hseg, hparts,
      Except.instMonad, Except.bind]⟩

/-- C10: the per-row partition-key computation is panic-free when every
    non-reserved key names a Utf8 column covering the row and, if any key is
    reserved, the timestamp column is set, names a microsecond-timestamp
    column covering the row, and every stored value converts to a datetime;
    violating these preconditions makes the export grouping abort with a
    panic (`RunResult.panicked`, a process abort) rather than return an
    export error value: a key naming no column panics with
    `"column not found"`, and a key naming a non-string column panics with
    `"string type mismatch"`. -/
theorem C10_key_totality_and_panics (row : Nat) (schema : List String)
    (batch : List ColumnData) (args : Args)
    (h1 : ∀ k ∈ args.partition_by, k ∉ reservedKeys →
      ∃ i vals, lookupIdx schema k = some i ∧
        batch[i]? = some (ColumnData.utf8 vals) ∧ row < vals.length)
    (h2 : (∃ k ∈ args.partition_by, k ∈ reservedKeys) →
      ∃ c i vals, args.timestamp_col = some c ∧ lookupIdx schema c = some i ∧
        batch[i]? = some (ColumnData.timestampMicros vals) ∧
        row < vals.length ∧ ∀ t ∈ vals, (valueAsDatetime t).isSome = true) :
    (build_partition_key row schema batch args).isOk = true ∧
    group_rows_by_partition ["x"] [ColumnData.utf8 ["v"]] 1
      ⟨"t", "/tmp", ["y"], none⟩ = RunResult.panicked "column not found" ∧
    group_rows_by_partition ["x"] [ColumnData.otherType] 1
      ⟨"t", "/tmp", ["x"], none⟩ =
      RunResult.panicked "string type mismatch" := by
  refine ⟨?_, rfl, rfl⟩
  obtain ⟨parts, hparts⟩ := buildPartitionKeyParts_isOk row schema batch args
    args.partition_by h1 h2
  simp [build_partition_key, hparts, Except.map, Except.isOk, Except.toBool]

/-- Closed instance of `C10_key_totality_and_panics` at the 3-row scenario
    batch, discharging both preconditions there. -/
theorem C10_key_totality_witness :
    (build_partition_key 0 exSchema exBatch exArgs).isOk = true :=
  (C10_key_totality_and_panics 0 exSchema exBatch exArgs
    (by
      intro k hk _
      have : k = "key" := by simpa [exArgs] using hk
      exact ⟨0, ["a", "b", "a"], by rw [this]; decide, by decide, by decide⟩)
    (fun hex => absurd hex (by decide))).1

/-! ## C6: the bounded query-result cache is a proper LRU -/

/-- Modelled from the spec: the bounded query-result cache behind `QueryCache`
    (`plano-serv/src/routes/query_route.rs`) is the external `lru` crate's
    `LruCache`, absent from src. Entries are kept most-recently-used first
    under exact-string keys. -/
structure LruCache (α : Type) where
  cap : Nat
  entries : List (String × α)
deriving Repr, DecidableEq

/-- A freshly constructed cache of the given capacity (`initialize_cache`). -/
def LruCache.emptyCache (α : Type) (cap : Nat) : LruCache α := ⟨cap, []⟩

/-- Modelled from the spec: `get` returns the stored value of a present key
    and promotes the entry to most-recently-used; absent keys leave the cache
    unchanged. -/
def LruCache.get {α : Type} (c : LruCache α) (k : String) :
    Option α × LruCache α :=
  match c.entries.find? (fun e => decide (e.1 = k)) with
  | none => (none, c)
  | some e =>
    (some e.2, ⟨c.cap, (k, e.2) :: c.entries.filter (fun e2 => decide (e2.1 ≠ k))⟩)

/-- Modelled from the spec: `put` updates and promotes an existing key; for a
    fresh key at capacity it evicts the least-recently-used entry (the back of
    the list) before inserting at the front. -/
def LruCache.put {α : Type} (c : LruCache α) (k : String) (v : α) :
    LruCache α :=
  if c.entries.any (fun e => decide (e.1 = k)) then
    ⟨c.cap, (k, v) :: c.entries.filter (fun e => decide (e.1 ≠ k))⟩
  else if c.entries.length = c.cap then
    ⟨c.cap, (k, v) :: c.entries.dropLast⟩
  else
    ⟨c.cap, (k, v) :: c.entries⟩

theorem lru_find_absent {α : Type} (entries : List (String × α)) (k : String)
    (habs : k ∉ entries.map Prod.fst) :
    entries.find? (fun e => decide (e.1 = k)) = none := by
  rw [List.find?_eq_none]
  intro e he
  simp only [decide_eq_true_eq]
  intro hek
  exact habs (hek ▸ List.mem_map_of_mem Prod.fst he)

theorem lru_find_present {α : Type} (entries : List (String × α)) (k : String)
    (w : α) (hnd : (entries.map Prod.fst).Nodup) (hmem : (k, w) ∈ entries) :
    entries.find? (fun e => decide (e.1 = k)) = some (k, w) := by
  induction entries with
  | nil => cases hmem
  | cons e es ih =>
    rw [List.map_cons, List.nodup_cons] at hnd
    rcases List.mem_cons.mp hmem with he | he
    · rw [← he]
      simp [List.find?]
    · have hk : k ∈ es.map Prod.fst := by
        simpa using List.mem_map_of_mem Prod.fst he
      have hne : ¬ e.1 = k := fun hek => hnd.1 (hek ▸ hk)
      have hd : decide (e.1 = k) = false := decide_eq_false hne
      rw [List.find?, hd]
      exact ih hnd.2 he

theorem lru_get_absent {α : Type} (c : LruCache α) (k : String)
    (habs : k ∉ c.entries.map Prod.fst) : c.get k = (none, c) := by
  rw [LruCache.get, lru_find_absent c.entries k habs]

theorem lru_get_present {α : Type} (c : LruCache α) (k : String) (w : α)
    (hnd : (c.entries.map Prod.fst).Nodup) (hmem : (k, w) ∈ c.entries) :
    c.get k =
      (some w,
        ⟨c.cap, (k, w) :: c.entries.filter (fun e => decide (e.1 ≠ k))⟩) := by
  rw [LruCache.get, lru_find_present c.entries k w hnd hmem]

theorem lru_foldl_fresh {α : Type} (v : String → α) (ks : List String) :
    ∀ c : LruCache α, ks.Nodup →
      (∀ k ∈ ks, k ∉ c.entries.map Prod.fst) →
      c.entries.length + ks.length ≤ c.cap →
      ks.foldl (fun c2 k => c2.put k (v k)) c =
        ⟨c.cap, (ks.reverse.map (fun k => (k, v k))) ++ c.entries⟩ := by
  induction ks with
  | nil => intro c _ _ _; rfl
  | cons k ks ih =>
    intro c hnd hfresh hlen
    have hany : c.entries.any (fun e => decide (e.1 = k)) = false := by
      rw [List.any_eq_false]
      intro e he
      simp only [decide_eq_true_eq]
      intro hek
      exact hfresh k (List.mem_cons_self k ks)
        (hek ▸ List.mem_map_of_mem Prod.fst he)
    have hne : c.entries.length ≠ c.cap := by
      simp only [List.length_cons] at hlen
      omega
    have hput : c.put k (v k) = ⟨c.cap, (k, v k) :: c.entries⟩ := by
      rw [LruCache.put, hany]
      simp [hne]
    have hstep := ih ⟨c.cap, (k, v k) :: c.entries⟩ hnd.of_cons
      (by
        intro k2 hk2
        simp only [List.map_cons, List.mem_cons]
        rintro (h | h)
        · exact (List.nodup_cons.mp hnd).1 (h ▸ hk2)
        · exact hfresh k2 (List.mem_cons_of_mem k hk2) h)
      (by
        simp only [List.length_cons] at hlen ⊢
        omega)
    calc (k :: ks).foldl (fun c2 k2 => c2.put k2 (v k2)) c
        = ks.foldl (fun c2 k2 => c2.put k2 (v k2)) (c.put k (v k)) := rfl
      _ = ks.foldl (fun c2 k2 => c2.put k2 (v k2))
            ⟨c.cap, (k, v k) :: c.entries⟩ := by rw [hput]
      _ = ⟨c.cap, (ks.reverse.map (fun k2 => (k2, v k2))) ++
            ((k, v k) :: c.entries)⟩ := hstep
      _ = ⟨c.cap, ((k :: ks).reverse.map (fun k2 => (k2, v k2))) ++
            c.entries⟩ := by simp

/-- C6: the query cache is a proper LRU under exact-string keys: starting
    empty, inserting `cap + 1` distinct keys evicts exactly the first
    (least-recently-touched) key — it is gone while every later key is still
    present with its stored value; a `get` on a present key returns its value
    and promotes it to most-recently-used; a `put` of a fresh key at capacity
    evicts the back (least-recently-used) entry before inserting; and with
    capacity 2, putting Q1, Q2, Q3 in order evicts exactly Q1. -/
theorem C6_lru_cache (α : Type) (cap : Nat) (v : String → α) :
    (∀ (k0 : String) (rest : List String), (k0 :: rest).Nodup →
      rest.length = cap → 0 < cap →
      (((k0 :: rest).foldl (fun c k => c.put k (v k))
          (LruCache.emptyCache α cap)).get k0).1 = none ∧
      ∀ k ∈ rest,
        (((k0 :: rest).foldl (fun c k => c.put k (v k))
            (LruCache.emptyCache α cap)).get k).1 = some (v k)) ∧
    (∀ (c : LruCache α) (k : String) (w : α),
      (c.entries.map Prod.fst).Nodup → (k, w) ∈ c.entries →
      c.get k = (some w,
        ⟨c.cap, (k, w) :: c.entries.filter (fun e => decide (e.1 ≠ k))⟩)) ∧
    (∀ (c : LruCache α) (k : String) (w : α),
      k ∉ c.entries.map Prod.fst → c.entries.length = c.cap →
      (c.put k w).entries = (k, w) :: c.entries.dropLast) ∧
    ((((((LruCache.emptyCache Nat 2).put "Q1" 1).put "Q2" 2).put "Q3" 3).get
        "Q1").1 = none ∧
      (((((LruCache.emptyCache Nat 2).put "Q1" 1).put "Q2" 2).put "Q3" 3).get
        "Q2").1 = some 2 ∧
      (((((LruCache.emptyCache Nat 2).put "Q1" 1).put "Q2" 2).put "Q3" 3).get
        "Q3").1 = some 3) := by
  refine ⟨?_, ?_, ?_, by decide, by decide, by decide⟩
  · intro k0 rest hnd hlen hcap
    rcases List.eq_nil_or_concat rest with hrest | ⟨init, klast, rfl⟩
    · subst hrest
      simp at hlen
      omega
    · simp only [List.concat_eq_append] at hnd hlen ⊢
      have hinitlen : init.length + 1 = cap := by
        simpa using hlen
      have hndk0 : k0 ∉ init ++ [klast] := (List.nodup_cons.mp hnd).1
      have hndrest : (init ++ [klast]).Nodup := (List.nodup_cons.mp hnd).2
      have hk0init : k0 ∉ init := fun h => hndk0 (List.mem_append_left _ h)
      have hk0klast : k0 ≠ klast := fun h =>
        hndk0 (List.mem_append_right _ (h ▸ List.mem_singleton_self klast))
      have hklastinit : klast ∉ init := by
        rw [List.nodup_append] at hndrest
        exact fun h => hndrest.2.2 h (List.mem_singleton_self klast)
      have hinitnd : init.Nodup := (List.nodup_append.mp hndrest).1
      have hndhead : (k0 :: init).Nodup :=
        List.nodup_cons.mpr ⟨hk0init, hinitnd⟩
      have hfill := lru_foldl_fresh v (k0 :: init) (LruCache.emptyCache α cap)
        hndhead
        (by intro k _ h; simp [LruCache.emptyCache] at h)
        (by simp [LruCache.emptyCache]; omega)
      have hfillentries : ((k0 :: init).foldl (fun c k => c.put k (v k))
          (LruCache.emptyCache α cap)).entries =
          init.reverse.map (fun k => (k, v k)) ++ [(k0, v k0)] := by
        rw [hfill]
        simp [LruCache.emptyCache]
      have hsplit : (k0 :: (init ++ [klast])).foldl
          (fun c k => c.put k (v k)) (LruCache.emptyCache α cap) =
          ((k0 :: init).foldl (fun c k => c.put k (v k))
            (LruCache.emptyCache α cap)).put klast (v klast) := by
        rw [show k0 :: (init ++ [klast]) = (k0 :: init) ++ [klast] from rfl,
          List.foldl_append]
        rfl
      have hkeysof : ∀ l : List String,
          (l.map (fun k => (k, v k))).map Prod.fst = l := by
        intro l
        rw [List.map_map]
        simp [Function.comp_def]
      set c1 := (k0 :: init).foldl (fun c k => c.put k (v k))
        (LruCache.emptyCache α cap) with hc1
      have hc1cap : c1.cap = cap := by
        rw [hfill]
        rfl
      have hc1keys : c1.entries.map Prod.fst = init.reverse ++ [k0] := by
        rw [hfillentries]
        rw [List.map_append, hkeysof]
        rfl
      have hany : c1.entries.any (fun e => decide (e.1 = klast)) = false := by
        rw [List.any_eq_false]
        intro e he
        simp only [decide_eq_true_eq]
        intro hek
        have : klast ∈ c1.entries.map Prod.fst :=
          hek ▸ List.mem_map_of_mem Prod.fst he
        rw [hc1keys] at this
        rcases List.mem_append.mp this with h | h
        · exact hklastinit (List.mem_reverse.mp h)
        · exact hk0klast ((List.mem_singleton.mp h).symm)
      have hc1len : c1.entries.length = c1.cap := by
        rw [hfillentries, hc1cap]
        simp only [List.length_append, List.length_map, List.length_reverse,
          List.length_cons, List.length_nil]
        omega
      have hfinal : (c1.put klast (v klast)).entries =
          (klast, v klast) :: init.reverse.map (fun k => (k, v k)) := by
        rw [LruCache.put, hany]
        simp only [Bool.false_eq_true, if_false]
        rw [if_pos hc1len, hfillentries, List.dropLast_concat]
      have hfinalkeys : (c1.put klast (v klast)).entries.map Prod.fst =
          klast :: init.reverse := by
        rw [hfinal, List.map_cons, hkeysof]
      have hfinalnd : ((c1.put klast (v klast)).entries.map Prod.fst).Nodup := by
        rw [hfinalkeys]
        exact List.nodup_cons.mpr
          ⟨fun h => hklastinit (List.mem_reverse.mp h),
           List.nodup_reverse.mpr hinitnd⟩
      rw [hsplit]
      constructor
      · have habs : k0 ∉ (c1.put klast (v klast)).entries.map Prod.fst := by
          rw [hfinalkeys]
          intro h
          rcases List.mem_cons.mp h with h | h
          · exact hk0klast h
          · exact hk0init (List.mem_reverse.mp h)
        rw [lru_get_absent _ _ habs]
      · intro k hk
        rcases List.mem_append.mp hk with hk | hk
        · have hmem : (k, v k) ∈ (c1.put klast (v klast)).entries := by
            rw [hfinal]
            exact List.mem_cons_of_mem _
              (List.mem_map_of_mem (fun k2 => (k2, v k2))
                (List.mem_reverse.mpr hk))
          rw [lru_get_present _ _ _ hfinalnd hmem]
        · have hkk : k = klast := List.mem_singleton.mp hk
          subst hkk
          have hmem : (k, v k) ∈ (c1.put k (v k)).entries := by
            rw [hfinal]
            exact List.mem_cons_self _ _
          rw [lru_get_present _ _ _ hfinalnd hmem]
  · intro c k w hnd hmem
    exact lru_get_present c k w hnd hmem
  · intro c k w habs hcaplen
    have hany : c.entries.any (fun e => decide (e.1 = k)) = false := by
      rw [List.any_eq_false]
      intro e he
      simp only [decide_eq_true_eq]
      intro hek
      exact habs (hek ▸ List.mem_map_of_mem Prod.fst he)
    rw [LruCache.put, hany]
    simp [hcaplen]

/-- Closed instances of `C6_lru_cache`: the capacity-2 Q1/Q2/Q3 eviction,
    a promoting `get`, and an evicting `put`, each hypothesis discharged at a
    concrete cache. -/
theorem C6_lru_witness :
    ((("Q1" :: ["Q2", "Q3"]).foldl (fun c k => c.put k ((fun _ => (0 : Nat)) k))
        (LruCache.emptyCache Nat 2)).get "Q1").1 = none ∧
    ((⟨2, [("a", 1), ("b", 2)]⟩ : LruCache Nat).get "b" =
      (some 2, ⟨2, ("b", 2) :: [("a", 1), ("b", 2)].filter
        (fun e => decide (e.1 ≠ "b"))⟩)) ∧
    ((⟨2, [("a", 1), ("b", 2)]⟩ : LruCache Nat).put "c" 3).entries =
      ("c", 3) :: [("a", 1), ("b", 2)].dropLast :=
  ⟨((C6_lru_cache Nat 2 (fun _ => 0)).1 "Q1" ["Q2", "Q3"] (by decide) rfl
      (by decide)).1,
   (C6_lru_cache Nat 2 (fun _ => 0)).2.1 ⟨2, [("a", 1), ("b", 2)]⟩ "b" 2
      (by decide) (by decide),
   (C6_lru_cache Nat 2 (fun _ => 0)).2.2.1 ⟨2, [("a", 1), ("b", 2)]⟩ "c" 3
      (by decide) rfl⟩

/-! ## C9: the metrics decorator is observationally transparent -/

/-- The argument and result types of the `ObjectStore` capability surface,
    abstract because they belong to the external `object_store` crate. -/
structure StoreSig : Type 1 where
  Path : Type
  Payload : Type
  PutOptions : Type
  PutResult : Type
  MultipartOptions : Type
  MultipartUpload : Type
  GetOptions : Type
  GetResult : Type
  ListStream : Type
  ListResult : Type
  ByteRange : Type
  Bytes : Type
  Err : Type

/-- A stateful model of an `ObjectStore` implementation: each operation maps
    its arguments and the store state to a result and a new state
    (`list` returns a stream handle rather than a `Result`). -/
structure ObjectStoreModel (S : StoreSig) (σ : Type) where
  put_opts : S.Path → S.Payload → S.PutOptions → σ →
    Except S.Err S.PutResult × σ
  put_multipart_opts : S.Path → S.MultipartOptions → σ →
    Except S.Err S.MultipartUpload × σ
  get_opts : S.Path → S.GetOptions → σ → Except S.Err S.GetResult × σ
  delete : S.Path → σ → Except S.Err Unit × σ
  list : Option S.Path → σ → S.ListStream × σ
  list_with_delimiter : Option S.Path → σ → Except S.Err S.ListResult × σ
  copy : S.Path → S.Path → σ → Except S.Err Unit × σ
  copy_if_not_exists : S.Path → S.Path → σ → Except S.Err Unit × σ
  get_range : S.Path → S.ByteRange → σ → Except S.Err S.Bytes × σ

/-- The nine operations counted by `metrics_object_store.rs`, one named
    counter each. -/
inductive StoreOp where
  | put_opts
  | put_multipart_opts
  | get_opts
  | delete
  | list
  | list_with_delimiter
  | copy
  | copy_if_not_exists
  | get_range
deriving Repr, DecidableEq

/-- The per-operation counters (`plano_store_*_total`). -/
def StoreCounters : Type := StoreOp → Nat

/-- `COUNTER.increment(1)` on the counter named for one operation. -/
def incrementCounter (c : StoreCounters) (op : StoreOp) : StoreCounters :=
  fun op2 => if op2 = op then c op2 + 1 else c op2

/-- `MetricsObjectStore` (`plano-serv/src/metrics_object_store.rs`): each
    operation increments its own counter and forwards unchanged to the
    wrapped store. -/
def MetricsObjectStore (S : StoreSig) (σ : Type)
    (inner : ObjectStoreModel S σ) :
    ObjectStoreModel S (StoreCounters × σ) where
  put_opts := fun location payload opts cs =>
    let r := inner.put_opts location payload opts cs.2
    (r.1, (incrementCounter cs.1 StoreOp.put_opts, r.2))
  put_multipart_opts := fun location opts cs =>
    let r := inner.put_multipart_opts location opts cs.2
    (r.1, (incrementCounter cs.1 StoreOp.put_multipart_opts, r.2))
  get_opts := fun location options cs =>
    let r := inner.get_opts location options cs.2
    (r.1, (incrementCounter cs.1 StoreOp.get_opts, r.2))
  delete := fun location cs =>
    let r := inner.delete location cs.2
    (r.1, (incrementCounter cs.1 StoreOp.delete, r.2))
  list := fun prefixPath cs =>
    let r := inner.list prefixPath cs.2
    (r.1, (incrementCounter cs.1 StoreOp.list, r.2))
  list_with_delimiter := fun prefixPath cs =>
    let r := inner.list_with_delimiter prefixPath cs.2
    (r.1, (incrementCounter cs.1 StoreOp.list_with_delimiter, r.2))
  copy := fun src dst cs =>
    let r := inner.copy src dst cs.2
    (r.1, (incrementCounter cs.1 StoreOp.copy, r.2))
  copy_if_not_exists := fun src dst cs =>
    let r := inner.copy_if_not_exists src dst cs.2
    (r.1, (incrementCounter cs.1 StoreOp.copy_if_not_exists, r.2))
  get_range := fun location range cs =>
    let r := inner.get_range location range cs.2
    (r.1, (incrementCounter cs.1 StoreOp.get_range, r.2))

/-- C9: for every operation and all arguments, the metrics-instrumented store
    returns exactly the wrapped store's result (value or error, no
    translation, no retries, no caching), drives the wrapped state exactly as
    a direct call would, and bumps exactly the one counter named for the
    operation by one, leaving every other counter unchanged. -/
theorem C9_metrics_transparent (S : StoreSig) (σ : Type)
    (inner : ObjectStoreModel S σ) (c : StoreCounters) (s : σ) :
    (∀ (p : S.Path) (pl : S.Payload) (o : S.PutOptions),
      ((MetricsObjectStore S σ inner).put_opts p pl o (c, s)).1 =
        (inner.put_opts p pl o s).1 ∧
      ((MetricsObjectStore S σ inner).put_opts p pl o (c, s)).2.2 =
        (inner.put_opts p pl o s).2 ∧
      ((MetricsObjectStore S σ inner).put_opts p pl o (c, s)).2.1 =
        incrementCounter c StoreOp.put_opts) ∧
    (∀ (p : S.Path) (o : S.MultipartOptions),
      ((MetricsObjectStore S σ inner).put_multipart_opts p o (c, s)).1 =
        (inner.put_multipart_opts p o s).1 ∧
      ((MetricsObjectStore S σ inner).put_multipart_opts p o (c, s)).2.2 =
        (inner.put_multipart_opts p o s).2 ∧
      ((MetricsObjectStore S σ inner).put_multipart_opts p o (c, s)).2.1 =
        incrementCounter c StoreOp.put_multipart_opts) ∧
    (∀ (p : S.Path) (o : S.GetOptions),
      ((MetricsObjectStore S σ inner).get_opts p o (c, s)).1 =
        (inner.get_opts p o s).1 ∧
      ((MetricsObjectStore S σ inner).get_opts p o (c, s)).2.2 =
        (inner.get_opts p o s).2 ∧
      ((MetricsObjectStore S σ inner).get_opts p o (c, s)).2.1 =
        incrementCounter c StoreOp.get_opts) ∧
    (∀ p : S.Path,
      ((MetricsObjectStore S σ inner).delete p (c, s)).1 =
        (inner.delete p s).1 ∧
      ((MetricsObjectStore S σ inner).delete p (c, s)).2.2 =
        (inner.delete p s).2 ∧
      ((MetricsObjectStore S σ inner).delete p (c, s)).2.1 =
        incrementCounter c StoreOp.delete) ∧
    (∀ p : Option S.Path,
      ((MetricsObjectStore S σ inner).list p (c, s)).1 =
        (inner.list p s).1 ∧
      ((MetricsObjectStore S σ inner).list p (c, s)).2.2 =
        (inner.list p s).2 ∧
      ((MetricsObjectStore S σ inner).list p (c, s)).2.1 =
        incrementCounter c StoreOp.list) ∧
    (∀ p : Option S.Path,
      ((MetricsObjectStore S σ inner).list_with_delimiter p (c, s)).1 =
        (inner.list_with_delimiter p s).1 ∧
      ((MetricsObjectStore S σ inner).list_with_delimiter p (c, s)).2.2 =
        (inner.list_with_delimiter p s).2 ∧
      ((MetricsObjectStore S σ inner).list_with_delimiter p (c, s)).2.1 =
        incrementCounter c StoreOp.list_with_delimiter) ∧
    (∀ p q : S.Path,
      ((MetricsObjectStore S σ inner).copy p q (c, s)).1 =
        (inner.copy p q s).1 ∧
      ((MetricsObjectStore S σ inner).copy p q (c, s)).2.2 =
        (inner.copy p q s).2 ∧
      ((MetricsObjectStore S σ inner).copy p q (c, s)).2.1 =
        incrementCounter c StoreOp.copy) ∧
    (∀ p q : S.Path,
      ((MetricsObjectStore S σ inner).copy_if_not_exists p q (c, s)).1 =
        (inner.copy_if_not_exists p q s).1 ∧
      ((MetricsObjectStore S σ inner).copy_if_not_exists p q (c, s)).2.2 =
        (inner.copy_if_not_exists p q s).2 ∧
      ((MetricsObjectStore S σ inner).copy_if_not_exists p q (c, s)).2.1 =
        incrementCounter c StoreOp.copy_if_not_exists) ∧
    (∀ (p : S.Path) (r : S.ByteRange),
      ((MetricsObjectStore S σ inner).get_range p r (c, s)).1 =
        (inner.get_range p r s).1 ∧
      ((MetricsObjectStore S σ inner).get_range p r (c, s)).2.2 =
        (inner.get_range p r s).2 ∧
      ((MetricsObjectStore S σ inner).get_range p r (c, s)).2.1 =
        incrementCounter c StoreOp.get_range) ∧
    (∀ op : StoreOp, incrementCounter c op op = c op + 1 ∧
      ∀ op2 : StoreOp, op2 ≠ op → incrementCounter c op op2 = c op2) := by
  refine ⟨fun p pl o => ⟨rfl, rfl, rfl⟩, fun p o => ⟨rfl, rfl, rfl⟩,
    fun p o => ⟨rfl, rfl, rfl⟩, fun p => ⟨rfl, rfl, rfl⟩,
    fun p => ⟨rfl, rfl, rfl⟩, fun p => ⟨rfl, rfl, rfl⟩,
    fun p q => ⟨rfl, rfl, rfl⟩, fun p q => ⟨rfl, rfl, rfl⟩,
    fun p r => ⟨rfl, rfl, rfl⟩, ?_⟩
  intro op
  constructor
  · simp [incrementCounter]
  · intro op2 hne
    simp [incrementCounter, hne]

/-- A trivial store signature and implementation used to witness
    `C9_metrics_transparent` at a concrete input. -/
def unitStoreSig : StoreSig :=
  ⟨Unit, Unit, Unit, Unit, Unit, Unit, Unit, Unit, Unit, Unit, Unit, Unit,
    Unit⟩

def unitStore : ObjectStoreModel unitStoreSig Unit where
  put_opts := fun _ _ _ s => (Except.ok (), s)
  put_multipart_opts := fun _ _ s => (Except.ok (), s)
  get_opts := fun _ _ s => (Except.ok (), s)
  delete := fun _ s => (Except.ok (), s)
  list := fun _ s => ((), s)
  list_with_delimiter := fun _ s => (Except.ok (), s)
  copy := fun _ _ s => (Except.ok (), s)
  copy_if_not_exists := fun _ _ s => (Except.ok (), s)
  get_range := fun _ _ s => (Except.ok (), s)

/-- Closed instance of `C9_metrics_transparent`: at a concrete store, the
    decorated `put_opts` returns the inner result and bumps only its own
    counter. -/
theorem C9_metrics_witness :
    ((MetricsObjectStore unitStoreSig Unit unitStore).put_opts () () ()
      ((fun _ => 0), ())).1 = (unitStore.put_opts () () () ()).1 ∧
    incrementCounter (fun _ => 0) StoreOp.put_opts StoreOp.put_opts = 1 ∧
    incrementCounter (fun _ => 0) StoreOp.put_opts StoreOp.delete = 0 :=
  ⟨((C9_metrics_transparent unitStoreSig Unit unitStore (fun _ => 0) ()).1
      () () ()).1,
   ((C9_metrics_transparent unitStoreSig Unit unitStore (fun _ => 0) ()).2.2.2.2.2.2.2.2.2
      StoreOp.put_opts).1,
   ((C9_metrics_transparent unitStoreSig Unit unitStore (fun _ => 0) ()).2.2.2.2.2.2.2.2.2
      StoreOp.put_opts).2 StoreOp.delete (by decide)⟩

end Plano
